import Mathlib

/-!
A verification development for the `ldap-go-lib` directory-service client
library.  The Go sources are shallowly embedded: pure request-building and
validation code becomes Lean functions on `String` and `List String`,
fallible paths become `Option`/`Except`, and the external LDAP directory is
modelled at its interface boundary.  Go `int` arithmetic that can go
negative is embedded as `Int`; Go slices whose `nil`/empty distinction is
observable are embedded as `Option (List _)`.
-/

namespace LdapLib

/-- The fields of `Config` (client.go) that the group and user codecs read:
the user subtree base DN and the group subtree base DN. -/
structure Config where
  userBaseDN : String
  groupBaseDN : String
deriving DecidableEq, Repr

/-- `noSuchUserGroupMemberCn` (groups source): the sentinel member cn. -/
def noSuchUserGroupMemberCn : String := "NO_SUCH_USER"

/-- `userIdAttr` (client.go). -/
def userIdAttr : String := "uid"

/-- `alternateUserIdAttr` (client.go). -/
def alternateUserIdAttr : String := "altUid"

/-- `CommonNameAttr` (client.go). -/
def CommonNameAttr : String := "cn"

/-- `familyNameAttr` (client.go). -/
def familyNameAttr : String := "sn"

/-- `displayNameAttr` (client.go). -/
def displayNameAttr : String := "displayName"

/-- `employeeNumberAttr` (client.go). -/
def employeeNumberAttr : String := "employeeNumber"

/-- `mailAttr` (client.go). -/
def mailAttr : String := "mail"

/-- `userPasswordAttr` (client.go). -/
def userPasswordAttr : String := "userPassword"

/-- `statusAttr` (client.go). -/
def statusAttr : String := "status"

/-- `OrganizationalUnitAttr` (client.go). -/
def OrganizationalUnitAttr : String := "ou"

/-- `uniqueMemberAttr` (client.go). -/
def uniqueMemberAttr : String := "uniqueMember"

/-- `groupSearchFilter` (client.go). -/
def groupSearchFilter : String := "(&(objectClass=groupOfUniqueNames))"

/-- `userSearchFilter` (client.go). -/
def userSearchFilter : String := "(&(objectClass=inetOrgPerson))"

/-- LDAP search scope (go-ldap constants `ScopeBaseObject`,
`ScopeSingleLevel`, `ScopeWholeSubtree`). -/
inductive Scope where
  | baseObject
  | singleLevel
  | wholeSubtree
deriving DecidableEq, Repr

/-- The fields of a go-ldap `SearchRequest` that the codecs populate. -/
structure SearchRequest where
  baseDN : String
  scope : Scope
  sizeLimit : Nat
  timeLimit : Nat
  typesOnly : Bool
  filter : String
  attributes : List String
deriving DecidableEq, Repr

/-- `groupsManager.getDN` (groups source): DN resolution for groups from
`(cn, ou)`.  Mirrors the three-way `if` of the Go code; note the final
`else` also covers `cn != "" && ou == ""`. -/
def groupsGetDN (cfg : Config) (cn ou : String) : String :=
  if cn ≠ "" ∧ ou ≠ "" then
    CommonNameAttr ++ "=" ++ cn ++ "," ++ OrganizationalUnitAttr ++ "=" ++ ou ++ "," ++
      cfg.groupBaseDN
  else if cn = "" ∧ ou ≠ "" then
    OrganizationalUnitAttr ++ "=" ++ ou ++ "," ++ cfg.groupBaseDN
  else
    cfg.groupBaseDN

/-- `groupsManager.getSearchRequest` (groups source): whole-subtree search
rooted at `getDN cn ou`, requesting `cn` and `uniqueMember`. -/
def groupsGetSearchRequest (cfg : Config) (cn ou searchFilter : String) : SearchRequest :=
  { baseDN := groupsGetDN cfg cn ou
    scope := Scope.wholeSubtree
    sizeLimit := 0
    timeLimit := 0
    typesOnly := false
    filter := searchFilter
    attributes := [CommonNameAttr, uniqueMemberAttr] }

/-- `groupsManager.getUniqueMemberDn` (groups source): qualify a member id
under the user base path. -/
def getUniqueMemberDn (cfg : Config) (memberId : String) : String :=
  userIdAttr ++ "=" ++ memberId ++ "," ++ cfg.userBaseDN

/-- Go `strings.ToUpper`: uppercase every character. -/
def goToUpper (s : String) : String :=
  ⟨s.data.map Char.toUpper⟩

/-- C7: For every cn and ou, the group DN used by getAll/get/getByFilter
resolves as: both cn and ou non-empty gives `cn=<cn>,ou=<ou>,<groupBase>`;
only ou non-empty gives `ou=<ou>,<groupBase>`; both empty gives
`<groupBase>`, and the search request built over it is a whole-subtree
search rooted at that DN. -/
theorem groupsGetDN_resolution (cfg : Config) (cn ou searchFilter : String) :
    (cn ≠ "" → ou ≠ "" →
      groupsGetDN cfg cn ou =
        CommonNameAttr ++ "=" ++ cn ++ "," ++ OrganizationalUnitAttr ++ "=" ++ ou ++ "," ++
          cfg.groupBaseDN) ∧
    (ou ≠ "" →
      groupsGetDN cfg "" ou = OrganizationalUnitAttr ++ "=" ++ ou ++ "," ++ cfg.groupBaseDN) ∧
    groupsGetDN cfg "" "" = cfg.groupBaseDN ∧
    (groupsGetSearchRequest cfg cn ou searchFilter).baseDN = groupsGetDN cfg cn ou ∧
    (groupsGetSearchRequest cfg cn ou searchFilter).scope = Scope.wholeSubtree := by
  refine ⟨fun hcn hou => ?_, fun hou => ?_, ?_, rfl, rfl⟩
  · simp [groupsGetDN, hcn, hou]
  · simp [groupsGetDN, hou]
  · simp [groupsGetDN]

/-- Witness for C7 at concrete inputs. -/
theorem groupsGetDN_resolution_witness :
    groupsGetDN ⟨"ou=users,o=example", "ou=groups,o=example"⟩ "g1" "ou1" =
      "cn=g1,ou=ou1,ou=groups,o=example" :=
  (groupsGetDN_resolution ⟨"ou=users,o=example", "ou=groups,o=example"⟩ "g1" "ou1"
    groupSearchFilter).1 (by decide) (by decide)

/-- C10: For every non-empty cn with an empty ou, group DN resolution
returns the bare group base path, identical to the both-empty case, so the
search request that `Get cn ""` issues coincides with the one `GetAll`
issues: its result set is independent of `cn`. -/
theorem groupsGet_emptyOu_ignores_cn (cfg : Config) (cn searchFilter : String)
    (hcn : cn ≠ "") :
    groupsGetDN cfg cn "" = cfg.groupBaseDN ∧
    groupsGetDN cfg cn "" = groupsGetDN cfg "" "" ∧
    groupsGetSearchRequest cfg cn "" searchFilter =
      groupsGetSearchRequest cfg "" "" searchFilter := by
  have h : groupsGetDN cfg cn "" = cfg.groupBaseDN := by
    simp [groupsGetDN]
  refine ⟨h, ?_, ?_⟩
  · rw [h]; simp [groupsGetDN]
  · simp [groupsGetSearchRequest, h, groupsGetDN]

/-- Witness for C10 at concrete inputs. -/
theorem groupsGet_emptyOu_ignores_cn_witness :
    groupsGetSearchRequest ⟨"ou=users,o=example", "ou=groups,o=example"⟩ "g1" ""
        groupSearchFilter =
      groupsGetSearchRequest ⟨"ou=users,o=example", "ou=groups,o=example"⟩ "" ""
        groupSearchFilter :=
  (groupsGet_emptyOu_ignores_cn ⟨"ou=users,o=example", "ou=groups,o=example"⟩ "g1"
    groupSearchFilter (by decide)).2.2

/-! ## Error taxonomy and the error translator (client.go `handleLdapError`) -/

/-- Messages carried by `go-utils` `errors.Error` values that this library
constructs.  The sprintf templates whose text lives in the external
`go-utils` module are modelled structurally, keeping the data they
interpolate. -/
inductive ErrMsg where
  /-- `errors.ErrMsg[errors.ErrCodeMissingMandatoryParameter]` applied to
  the missing parameter names. -/
  | missingParams (params : List String)
  /-- `invalidFilterKeyErrMsg` applied to the offending key and the valid
  key list. -/
  | invalidFilterKey (key : String) (validKeys : List String)
  /-- `userNotFoundMsg` applied to the uid. -/
  | userNotFound (uid : String)
  /-- a plain message string. -/
  | text (s : String)
deriving DecidableEq, Repr

/-- A `go-utils` `errors.Error` as this library observes it: an HTTP-like
status and a message. -/
structure RestError where
  status : Nat
  message : ErrMsg
deriving DecidableEq, Repr

/-- `errors.BadRequestError` / `errors.BadRequestErrorf`. -/
def badRequestError (m : ErrMsg) : RestError := ⟨400, m⟩

/-- `errors.UnauthorizedError`. -/
def unauthorizedError (m : ErrMsg) : RestError := ⟨401, m⟩

/-- `errors.ForbiddenError`. -/
def forbiddenError (m : ErrMsg) : RestError := ⟨403, m⟩

/-- `errors.NotFoundError`. -/
def notFoundError (m : ErrMsg) : RestError := ⟨404, m⟩

/-- `errors.ConflictError`. -/
def conflictError (m : ErrMsg) : RestError := ⟨409, m⟩

/-- `errors.InternalServerError`. -/
def internalServerError (m : ErrMsg) : RestError := ⟨500, m⟩

/-- `go-ldap` `LDAPResultCodeMap[LDAPResultInvalidCredentials]`. -/
def ldapInvalidCredentialsText : String := "Invalid Credentials"

/-- `go-ldap` `LDAPResultCodeMap[LDAPResultInvalidDNSyntax]`. -/
def ldapInvalidDNSyntaxText : String := "Invalid DN Syntax"

/-- `go-ldap` `LDAPResultCodeMap[LDAPResultInsufficientAccessRights]`. -/
def ldapInsufficientAccessText : String := "Insufficient Access Rights"

/-- `go-ldap` `LDAPResultCodeMap[LDAPResultEntryAlreadyExists]`. -/
def ldapEntryAlreadyExistsText : String := "Entry Already Exists"

/-- `go-ldap` `LDAPResultCodeMap[LDAPResultNoSuchObject]`. -/
def ldapNoSuchObjectText : String := "No Such Object"

/-- Go `strings.Contains s sub`: `sub` occurs as a contiguous substring of
`s`. -/
def strContains (s sub : String) : Bool :=
  s.data.tails.any (fun t => sub.data.isPrefixOf t)

/-- `Client.handleLdapError` (client.go): translate a protocol error's text
to a `RestError`, first match winning. -/
def handleLdapError (errStr : String) : RestError :=
  if strContains errStr ldapInvalidCredentialsText ∨
      strContains errStr ldapInvalidDNSyntaxText then
    unauthorizedError (.text ldapInvalidCredentialsText)
  else if strContains errStr ldapInsufficientAccessText then
    forbiddenError (.text ldapInsufficientAccessText)
  else if strContains errStr ldapEntryAlreadyExistsText then
    badRequestError (.text ldapEntryAlreadyExistsText)
  else if strContains errStr ldapNoSuchObjectText then
    notFoundError (.text ldapNoSuchObjectText)
  else
    internalServerError (.text errStr)

/-- C6: the Error Translator checks conditions in order with first match
winning: Unauthorized on the invalid-credentials or invalid-DN-syntax
code, then Forbidden on insufficient-access-rights, then BadRequest on
entry-already-exists, then NotFound on no-such-object, and otherwise
InternalServerError whose message equals the original error text. -/
theorem handleLdapError_spec (s : String) :
    ((strContains s ldapInvalidCredentialsText ∨ strContains s ldapInvalidDNSyntaxText) →
      handleLdapError s = unauthorizedError (.text ldapInvalidCredentialsText)) ∧
    (¬(strContains s ldapInvalidCredentialsText ∨ strContains s ldapInvalidDNSyntaxText) →
      strContains s ldapInsufficientAccessText →
      handleLdapError s = forbiddenError (.text ldapInsufficientAccessText)) ∧
    (¬(strContains s ldapInvalidCredentialsText ∨ strContains s ldapInvalidDNSyntaxText) →
      ¬strContains s ldapInsufficientAccessText →
      strContains s ldapEntryAlreadyExistsText →
      handleLdapError s = badRequestError (.text ldapEntryAlreadyExistsText)) ∧
    (¬(strContains s ldapInvalidCredentialsText ∨ strContains s ldapInvalidDNSyntaxText) →
      ¬strContains s ldapInsufficientAccessText →
      ¬strContains s ldapEntryAlreadyExistsText →
      strContains s ldapNoSuchObjectText →
      handleLdapError s = notFoundError (.text ldapNoSuchObjectText)) ∧
    (¬(strContains s ldapInvalidCredentialsText ∨ strContains s ldapInvalidDNSyntaxText) →
      ¬strContains s ldapInsufficientAccessText →
      ¬strContains s ldapEntryAlreadyExistsText →
      ¬strContains s ldapNoSuchObjectText →
      handleLdapError s = internalServerError (.text s)) := by
  refine ⟨fun h1 => ?_, fun h1 h2 => ?_, fun h1 h2 h3 => ?_, fun h1 h2 h3 h4 => ?_,
    fun h1 h2 h3 h4 => ?_⟩
  · simp [handleLdapError, h1]
  · simp [handleLdapError, h1, h2]
  · simp [handleLdapError, h1, h2, h3]
  · simp [handleLdapError, h1, h2, h3, h4]
  · simp [handleLdapError, h1, h2, h3, h4]

/-- Witness for C6: an unmapped error is surfaced verbatim as
InternalServerError. -/
theorem handleLdapError_spec_witness :
    handleLdapError "dial tcp: connection refused" =
      internalServerError (.text "dial tcp: connection refused") :=
  (handleLdapError_spec "dial tcp: connection refused").2.2.2.2
    (by decide) (by decide) (by decide) (by decide)

/-! ## Connection lifecycle (client.go `connect` / `doLDAP*`)

The transport collaborator is modelled by the outcomes of its calls; the
embedding records, as a trace of events, which transport actions the
`doLDAP*` wrappers perform before returning.  `Ev.dial` is emitted exactly
when a transport connection is successfully opened, `Ev.op` when the
protocol operation runs, `Ev.close` when `ldapClient.Close()` runs. -/

/-- A transport-visible event of one `doLDAP*` call. -/
inductive Ev where
  | dial
  | op
  | close
deriving DecidableEq, Repr

/-- The five protocol operations wrapped by the Connection Manager
(`doLDAPSearch`, `doLDAPAdd`, `doLDAPDelete`, `doLDAPModify`,
`doLDAPPasswordModify`); their connect/defer-close structure is
identical. -/
inductive OpKind where
  | search
  | add
  | delete
  | modify
  | passwordModify
deriving DecidableEq, Repr

/-- The outcomes of the external collaborators during one call:
config validation (`Client.validate`), the `unitTesting` flag that skips
dialing, transport dial, bind, and the protocol operation itself. -/
structure ConnEnv where
  validateOk : Bool
  unitTesting : Bool
  dialOk : Bool
  bindOk : Bool
  opOk : Bool
deriving DecidableEq, Repr

/-- `Client.connect` (client.go): validate, dial unless `unitTesting`,
bind.  Returns the events emitted and whether connect succeeded. -/
def connectTrace (e : ConnEnv) : List Ev × Bool :=
  if !e.validateOk then ([], false)
  else if !e.unitTesting && !e.dialOk then ([], false)
  else
    let evs := if e.unitTesting then [] else [Ev.dial]
    if e.bindOk then (evs, true) else (evs, false)

/-- A `doLDAP*` wrapper (client.go): on `connect` failure it returns the
error at once — the `defer Close` is registered only after `connect`
succeeds; on success the operation runs and `Close` runs before return on
both the success and the operation-failure path.  The result is `none`
when `connect` failed, otherwise `some opOk`. -/
def doLDAPOpTrace (_ : OpKind) (e : ConnEnv) : List Ev × Option Bool :=
  let c := connectTrace e
  if !c.2 then (c.1, none)
  else (c.1 ++ [Ev.op, Ev.close], some e.opOk)

/-- Counterexample to C5: with a valid configuration, a successful dial
and a failed bind, the call returns with the dialed connection left
unreleased — the trace contains `dial` but no `close`. -/
theorem doLDAPOp_close_counterexample :
    (doLDAPOpTrace OpKind.search ⟨true, false, true, false, true⟩).1 = [Ev.dial] ∧
    Ev.dial ∈ (doLDAPOpTrace OpKind.search ⟨true, false, true, false, true⟩).1 ∧
    Ev.close ∉ (doLDAPOpTrace OpKind.search ⟨true, false, true, false, true⟩).1 := by
  refine ⟨rfl, by decide, by decide⟩

/-- C5 amended: for every operation kind, the connection is released
before return on every exit path reached after a successful connect —
both the operation-failure and the success path emit `close`; when
`connect` fails (validation, dial, or bind failure) the wrapper returns
without invoking `close`. -/
theorem doLDAPOp_close_after_connect (k : OpKind) (e : ConnEnv) :
    ((doLDAPOpTrace k e).2.isSome → Ev.close ∈ (doLDAPOpTrace k e).1) ∧
    ((doLDAPOpTrace k e).2 = none → Ev.close ∉ (doLDAPOpTrace k e).1) := by
  unfold doLDAPOpTrace connectTrace
  rcases e with ⟨v, u, d, b, o⟩
  cases v <;> cases u <;> cases d <;> cases b <;> simp

/-- Witness for C5's amended theorem: a fully successful search closes the
connection. -/
theorem doLDAPOp_close_after_connect_witness :
    Ev.close ∈ (doLDAPOpTrace OpKind.search ⟨true, false, true, true, true⟩).1 :=
  (doLDAPOp_close_after_connect OpKind.search ⟨true, false, true, true, true⟩).1 (by decide)

/-! ## Users codec (users.go) -/

/-- Go `strings.TrimSpace` on the character list: drop leading and
trailing whitespace. -/
def trimSpaceList (l : List Char) : List Char :=
  ((l.dropWhile Char.isWhitespace).reverse.dropWhile Char.isWhitespace).reverse

/-- Go `strings.TrimSpace`. -/
def goTrimSpace (s : String) : String :=
  ⟨trimSpaceList s.data⟩

/-- A go-ldap directory `Entry`: named attributes, each with a list of
values. -/
structure Entry where
  dn : String
  attributes : List (String × List String)
deriving DecidableEq, Repr

/-- go-ldap `Entry.GetAttributeValue`: the first value of the named
attribute, or `""` when the attribute is absent or empty. -/
def Entry.getAttributeValue (e : Entry) (name : String) : String :=
  match e.attributes.find? (fun p => p.1 == name) with
  | some p => p.2.headD ""
  | none => ""

/-- `User` (users.go). -/
structure User where
  uid : String
  altUid : String
  cn : String
  sn : String
  displayName : String
  employeeNumber : String
  mail : String
  userPassword : String
  status : String
deriving DecidableEq, Repr

/-- One iteration of `usersManager.parseSearchResult`'s loop (users.go):
build a `User` from a directory entry. -/
def parseUserEntry (e : Entry) : User :=
  { uid := e.getAttributeValue userIdAttr
    altUid := e.getAttributeValue alternateUserIdAttr
    cn := e.getAttributeValue CommonNameAttr
    sn := e.getAttributeValue familyNameAttr
    displayName := e.getAttributeValue displayNameAttr
    employeeNumber := e.getAttributeValue employeeNumberAttr
    mail := e.getAttributeValue mailAttr
    userPassword := e.getAttributeValue userPasswordAttr
    status := e.getAttributeValue statusAttr }

/-- A Go slice, whose `nil`/empty distinction is observable: `none` is the
`nil` slice. -/
def GoSlice (α : Type) : Type := Option (List α)

/-- Go `append` on a possibly-nil slice. -/
def goSliceAppend {α : Type} (s : GoSlice α) (x : α) : GoSlice α :=
  some ((s.getD []) ++ [x])

/-- Go `len` of a possibly-nil slice. -/
def goSliceLen {α : Type} (s : GoSlice α) : Nat :=
  (s.getD []).length

/-- `usersManager.parseSearchResult` (users.go): parse every entry,
then replace a zero-length result by the non-nil empty slice. -/
def usersParseSearchResult (entries : List Entry) : GoSlice User :=
  let users := entries.foldl (fun acc e => goSliceAppend acc (parseUserEntry e)) none
  if goSliceLen users = 0 then some [] else users

/-- `userAttributes` (users.go): the recognized user filter keys.  Note it
does not include `userPassword`. -/
def userAttributes : List String :=
  [userIdAttr, alternateUserIdAttr, CommonNameAttr, familyNameAttr, displayNameAttr,
    employeeNumberAttr, mailAttr, statusAttr]

/-- `usersManager.validateFilter` (users.go): both key and value must be
non-blank, and the key must be a recognized user attribute. -/
def validateFilter (key value : String) : Option RestError :=
  let missingParams : List String :=
    (if goTrimSpace key = "" then ["key"] else []) ++
      (if goTrimSpace value = "" then ["value"] else [])
  if 0 < missingParams.length then
    some (badRequestError (.missingParams missingParams))
  else if !userAttributes.contains key then
    some (badRequestError (.invalidFilterKey key userAttributes))
  else
    none

/-- `WildcardUserSearchFilter` (client.go) applied to a key/value pair. -/
def wildcardUserSearchFilter (key value : String) : String :=
  "(&(" ++ key ++ "=" ++ value ++ ")(objectClass=inetOrgPerson))"

/-- `usersManager.Filter` (users.go), with the directory search
abstracted as a function from the search filter string to the search
outcome: validate, search with the wildcard filter, parse. -/
def usersFilter (key value : String)
    (search : String → Except RestError (List Entry)) :
    Except RestError (GoSlice User) :=
  match validateFilter key value with
  | some e => .error e
  | none =>
    match search (wildcardUserSearchFilter key value) with
    | .error e => .error e
    | .ok entries => .ok (usersParseSearchResult entries)

/-- C8: `Filter` fails with BadRequest listing the missing parameter
names when key or value is blank, fails with BadRequest listing the valid
keys for a non-blank key that is not a recognized user attribute, and for
a valid key/value whose directory search succeeds with zero entries it
returns the empty, non-nil result list with no error. -/
theorem usersFilter_spec (key value : String)
    (search : String → Except RestError (List Entry)) :
    ((goTrimSpace key = "" ∨ goTrimSpace value = "") →
      usersFilter key value search =
        .error (badRequestError (.missingParams
          ((if goTrimSpace key = "" then ["key"] else []) ++
            (if goTrimSpace value = "" then ["value"] else []))))) ∧
    (goTrimSpace key ≠ "" → goTrimSpace value ≠ "" → key ∉ userAttributes →
      usersFilter key value search =
        .error (badRequestError (.invalidFilterKey key userAttributes))) ∧
    (goTrimSpace key ≠ "" → goTrimSpace value ≠ "" → key ∈ userAttributes →
      search (wildcardUserSearchFilter key value) = .ok [] →
      usersFilter key value search = .ok (some [])) := by
  refine ⟨fun h => ?_, fun hk hv hmem => ?_, fun hk hv hmem hsearch => ?_⟩
  · rcases h with h | h <;>
      · simp only [usersFilter, validateFilter, h]
        split <;> simp_all
  · simp only [usersFilter, validateFilter, hk, hv, if_neg hk, if_neg hv,
      List.append_nil, List.nil_append]
    simp [List.elem_iff, hmem]
  · simp only [usersFilter, validateFilter, if_neg hk, if_neg hv]
    simp only [List.nil_append, List.length_nil, Nat.lt_irrefl, if_false]
    simp [List.elem_iff, hmem, hsearch, usersParseSearchResult, goSliceLen]

/-- Witness for C8: `Filter "uid" "x"` over a directory returning zero
entries yields the empty, non-nil list. -/
theorem usersFilter_spec_witness :
    usersFilter "uid" "x" (fun _ => .ok []) = .ok (some []) :=
  (usersFilter_spec "uid" "x" (fun _ => .ok [])).2.2 (by decide) (by decide)
    (by decide) rfl

/-- The outcome of `usersManager.Get` (users.go): an error, a runtime
panic (the Go code indexes `[0]` unconditionally), or a user. -/
inductive GetOutcome where
  | err (e : RestError)
  | indexPanic : GetOutcome
  | ok (u : User)
deriving DecidableEq, Repr

/-- `usersManager.Get` (users.go) with the (validated-uid) directory
search outcome abstracted: validate the uid, remap a 404 search failure
to `userNotFound uid`, and return `&parseSearchResult(result)[0]` — which
panics when the parsed list is empty. -/
def usersGet (uid : String) (search : Except RestError (List Entry)) : GetOutcome :=
  if goTrimSpace uid = "" then
    .err (badRequestError (.missingParams [userIdAttr]))
  else
    match search with
    | .error e =>
      if e.status = 404 then .err (notFoundError (.userNotFound uid)) else .err e
    | .ok entries =>
      match ((usersParseSearchResult entries).getD []).get? 0 with
      | none => .indexPanic
      | some u => .ok u

/-- C9: for every uid passing validation, a successful directory search
with zero entries makes `Get` index `[0]` of an empty parsed list (a
runtime panic); its result is well-defined exactly when the successful
response has at least one entry, and is then the user parsed from the
first entry. -/
theorem usersGet_spec (uid : String) (search : Except RestError (List Entry))
    (huid : goTrimSpace uid ≠ "") :
    (search = .ok [] → usersGet uid search = .indexPanic) ∧
    (∀ e es, search = .ok (e :: es) → usersGet uid search = .ok (parseUserEntry e)) := by
  constructor
  · rintro rfl
    simp [usersGet, huid, usersParseSearchResult, goSliceLen, goSliceAppend]
  · rintro e es rfl
    simp only [usersGet, if_neg huid]
    have hfold : ∀ (l : List Entry) (acc : List User),
        (l.foldl (fun acc e => goSliceAppend acc (parseUserEntry e)) (some acc)) =
          some (acc ++ l.map parseUserEntry) := by
      intro l
      induction l with
      | nil => intro acc; simp
      | cons x xs ih =>
        intro acc
        rw [List.foldl_cons,
          show goSliceAppend (some acc) (parseUserEntry x) =
            some (acc ++ [parseUserEntry x]) from rfl, ih]
        simp
    have hparse : usersParseSearchResult (e :: es) =
        some (parseUserEntry e :: (es.map parseUserEntry)) := by
      unfold usersParseSearchResult
      rw [List.foldl_cons,
        show goSliceAppend none (parseUserEntry e) =
          some ([] ++ [parseUserEntry e]) from rfl, hfold]
      simp [goSliceLen]
    rw [hparse]
    rfl

/-- Witness for C9: a successful search with zero entries panics. -/
theorem usersGet_spec_witness :
    usersGet "C00001" (.ok []) = GetOutcome.indexPanic :=
  (usersGet_spec "C00001" (.ok []) (by decide)).1 rfl

/-! ## Group membership reconciliation (groups source, `AddMembers` /
`RemoveMembers`)

A go-ldap `ModifyRequest` accumulates attribute changes in order:
`mr.Add` and `mr.Delete` append an add-values resp. delete-values change.
`slice.EntryExists` (go-utils) is exact, case-sensitive membership. -/

/-- A go-ldap modify-change operation. -/
inductive ChangeOp where
  | add
  | delete
deriving DecidableEq, Repr

/-- One change of a go-ldap `ModifyRequest`. -/
structure Change where
  op : ChangeOp
  attr : String
  values : List String
deriving DecidableEq, Repr

/-- The fields of a go-ldap `ModifyRequest` this library populates. -/
structure ModifyRequest where
  dn : String
  changes : List Change
deriving DecidableEq, Repr

/-- go-ldap `ModifyRequest.Add`. -/
def ModifyRequest.addChange (mr : ModifyRequest) (attr : String) (values : List String) :
    ModifyRequest :=
  { mr with changes := mr.changes ++ [⟨ChangeOp.add, attr, values⟩] }

/-- go-ldap `ModifyRequest.Delete`. -/
def ModifyRequest.deleteChange (mr : ModifyRequest) (attr : String) (values : List String) :
    ModifyRequest :=
  { mr with changes := mr.changes ++ [⟨ChangeOp.delete, attr, values⟩] }

/-- All values carried on add-changes of a request, in order. -/
def ModifyRequest.addValues (mr : ModifyRequest) : List String :=
  ((mr.changes.filter (fun c => c.op == ChangeOp.add)).map Change.values).flatten

/-- All values carried on delete-changes of a request, in order. -/
def ModifyRequest.deleteValues (mr : ModifyRequest) : List String :=
  ((mr.changes.filter (fun c => c.op == ChangeOp.delete)).map Change.values).flatten

/-- The member-collection loop of `groupsManager.AddMembers` (groups
source): for each requested id, qualify its uppercased form under the user
base path and keep it when it is not already a current member. -/
def addMembersLoop (cfg : Config) (members memberIds : List String) : List String :=
  memberIds.foldl (fun acc memberId =>
    let uniqueMember := getUniqueMemberDn cfg (goToUpper memberId)
    if members.contains uniqueMember then acc else acc ++ [uniqueMember]) []

/-- The member-collection loop of `groupsManager.RemoveMembers` (groups
source): keep each qualified member DN that is currently present. -/
def removeMembersLoop (cfg : Config) (members memberIds : List String) : List String :=
  memberIds.foldl (fun acc memberId =>
    let uniqueMember := getUniqueMemberDn cfg (goToUpper memberId)
    if members.contains uniqueMember then acc ++ [uniqueMember] else acc) []

/-- `groupsManager.AddMembers` (groups source), request construction: add
the collected DNs when any, and delete the sentinel member DN when the
current plus newly-added count is at least 2. -/
def addMembersModifyRequest (cfg : Config) (cn ou : String)
    (members memberIds : List String) : ModifyRequest :=
  let uniqueMembers := addMembersLoop cfg members memberIds
  let mr : ModifyRequest := ⟨groupsGetDN cfg cn ou, []⟩
  let mr := if 0 < uniqueMembers.length then
      mr.addChange uniqueMemberAttr uniqueMembers
    else mr
  if 2 ≤ members.length + uniqueMembers.length then
    mr.deleteChange uniqueMemberAttr [getUniqueMemberDn cfg noSuchUserGroupMemberCn]
  else mr

/-- `groupsManager.RemoveMembers` (groups source), request construction:
delete the collected DNs when any, and add the sentinel member DN when
the current count minus the removed count is exactly 0 (Go `int`
arithmetic, hence `Int`). -/
def removeMembersModifyRequest (cfg : Config) (cn ou : String)
    (members memberIds : List String) : ModifyRequest :=
  let uniqueMembers := removeMembersLoop cfg members memberIds
  let mr : ModifyRequest := ⟨groupsGetDN cfg cn ou, []⟩
  let mr := if 0 < uniqueMembers.length then
      mr.deleteChange uniqueMemberAttr uniqueMembers
    else mr
  if (members.length : Int) - uniqueMembers.length = 0 then
    mr.addChange uniqueMemberAttr [getUniqueMemberDn cfg (goToUpper noSuchUserGroupMemberCn)]
  else mr

/-- Collection loops of the source's shape produce the filtered map:
kept-on-test-true version. -/
theorem foldl_collect_pos (p : String → Bool) (f : String → String) :
    ∀ (ids acc : List String),
      ids.foldl (fun acc x => if p (f x) then acc ++ [f x] else acc) acc =
        acc ++ (ids.map f).filter p := by
  intro ids
  induction ids with
  | nil => intro acc; simp
  | cons x xs ih =>
    intro acc
    simp only [List.foldl_cons, List.map_cons, List.filter_cons]
    cases h : p (f x) <;> simp [h, ih]

/-- Collection loops of the source's shape produce the filtered map:
kept-on-test-false version. -/
theorem foldl_collect_neg (p : String → Bool) (f : String → String) :
    ∀ (ids acc : List String),
      ids.foldl (fun acc x => if p (f x) then acc else acc ++ [f x]) acc =
        acc ++ (ids.map f).filter (fun d => !p d) := by
  intro ids
  induction ids with
  | nil => intro acc; simp
  | cons x xs ih =>
    intro acc
    simp only [List.foldl_cons, List.map_cons, List.filter_cons]
    cases h : p (f x) <;> simp [h, ih]

/-- The `AddMembers` loop collects exactly the qualified DNs not already
present. -/
theorem addMembersLoop_eq (cfg : Config) (members memberIds : List String) :
    addMembersLoop cfg members memberIds =
      (memberIds.map (fun m => getUniqueMemberDn cfg (goToUpper m))).filter
        (fun d => !members.contains d) := by
  have h := foldl_collect_neg (fun d => members.contains d)
    (fun m => getUniqueMemberDn cfg (goToUpper m)) memberIds []
  simpa [addMembersLoop] using h

/-- The `RemoveMembers` loop collects exactly the qualified DNs currently
present. -/
theorem removeMembersLoop_eq (cfg : Config) (members memberIds : List String) :
    removeMembersLoop cfg members memberIds =
      (memberIds.map (fun m => getUniqueMemberDn cfg (goToUpper m))).filter
        (fun d => members.contains d) := by
  have h := foldl_collect_pos (fun d => members.contains d)
    (fun m => getUniqueMemberDn cfg (goToUpper m)) memberIds []
  simpa [removeMembersLoop] using h

/-- C2: the modify request issued by `AddMembers` carries on its add side
exactly the qualified member DNs (identifier uppercased, qualified under
the user base path) not already current members under case-sensitive
exact comparison, and carries the sentinel member DN on its delete side
iff the resulting total membership (current plus newly added) is ≥ 2. -/
theorem addMembers_request_spec (cfg : Config) (cn ou : String)
    (members memberIds : List String) :
    (addMembersModifyRequest cfg cn ou members memberIds).addValues =
      (memberIds.map (fun m => getUniqueMemberDn cfg (goToUpper m))).filter
        (fun d => !members.contains d) ∧
    ((addMembersModifyRequest cfg cn ou members memberIds).deleteValues =
        [getUniqueMemberDn cfg noSuchUserGroupMemberCn] ↔
      2 ≤ members.length +
        ((memberIds.map (fun m => getUniqueMemberDn cfg (goToUpper m))).filter
          (fun d => !members.contains d)).length) := by
  rw [← addMembersLoop_eq]
  unfold addMembersModifyRequest
  by_cases hA : 0 < (addMembersLoop cfg members memberIds).length <;>
    by_cases hg : 2 ≤ members.length + (addMembersLoop cfg members memberIds).length
  · simp [hA, hg, ModifyRequest.addValues, ModifyRequest.deleteValues,
      ModifyRequest.addChange, ModifyRequest.deleteChange]
  · simp [hA, hg, ModifyRequest.addValues, ModifyRequest.deleteValues,
      ModifyRequest.addChange, ModifyRequest.deleteChange]
  · have hA0 : addMembersLoop cfg members memberIds = [] :=
      List.eq_nil_of_length_eq_zero (by omega)
    rw [hA0] at hg ⊢
    simp only [List.length_nil, Nat.add_zero] at hg
    simp [hg, ModifyRequest.addValues, ModifyRequest.deleteValues,
      ModifyRequest.addChange, ModifyRequest.deleteChange]
  · have hA0 : addMembersLoop cfg members memberIds = [] :=
      List.eq_nil_of_length_eq_zero (by omega)
    rw [hA0] at hg ⊢
    simp only [List.length_nil, Nat.add_zero] at hg
    simp [hg, ModifyRequest.addValues, ModifyRequest.deleteValues,
      ModifyRequest.addChange, ModifyRequest.deleteChange]

/-- C3: the modify request issued by `RemoveMembers` carries on its delete
side exactly the qualified member DNs currently present, and carries the
sentinel member DN on its add side iff the current member count minus the
removed count equals exactly 0. -/
theorem removeMembers_request_spec (cfg : Config) (cn ou : String)
    (members memberIds : List String) :
    (removeMembersModifyRequest cfg cn ou members memberIds).deleteValues =
      (memberIds.map (fun m => getUniqueMemberDn cfg (goToUpper m))).filter
        (fun d => members.contains d) ∧
    ((removeMembersModifyRequest cfg cn ou members memberIds).addValues =
        [getUniqueMemberDn cfg (goToUpper noSuchUserGroupMemberCn)] ↔
      (members.length : Int) -
        ((memberIds.map (fun m => getUniqueMemberDn cfg (goToUpper m))).filter
          (fun d => members.contains d)).length = 0) := by
  rw [← removeMembersLoop_eq]
  unfold removeMembersModifyRequest
  by_cases hR : 0 < (removeMembersLoop cfg members memberIds).length <;>
    by_cases hg : (members.length : Int) -
      (removeMembersLoop cfg members memberIds).length = 0
  · simp [hR, hg, ModifyRequest.addValues, ModifyRequest.deleteValues,
      ModifyRequest.addChange, ModifyRequest.deleteChange]
  · simp [hR, hg, ModifyRequest.addValues, ModifyRequest.deleteValues,
      ModifyRequest.addChange, ModifyRequest.deleteChange]
  · have hR0 : removeMembersLoop cfg members memberIds = [] :=
      List.eq_nil_of_length_eq_zero (by omega)
    rw [hR0] at hg ⊢
    simp only [List.length_nil, Nat.cast_zero, sub_zero, Nat.cast_eq_zero] at hg
    simp [hg, ModifyRequest.addValues, ModifyRequest.deleteValues,
      ModifyRequest.addChange, ModifyRequest.deleteChange]
  · have hR0 : removeMembersLoop cfg members memberIds = [] :=
      List.eq_nil_of_length_eq_zero (by omega)
    rw [hR0] at hg ⊢
    simp only [List.length_nil, Nat.cast_zero, sub_zero, Nat.cast_eq_zero] at hg
    simp [hg, ModifyRequest.addValues, ModifyRequest.deleteValues,
      ModifyRequest.addChange, ModifyRequest.deleteChange]

/-! ## The external directory's modify semantics and reachable group
states

Modelled from the spec: the raw directory protocol transport (§6) applies
a modify request's changes in order and atomically, per the LDAP protocol
contract — adding an attribute value that is already present fails
(`attributeOrValueExists`), deleting a value that is not present fails
(`noSuchAttribute`), and a failed modify leaves the entry unchanged.  A
group's state is its `uniqueMember` value list (LDAP attribute values are
distinct, but no such assumption is built into the semantics). -/

/-- Add a list of values to an attribute, one at a time; fails if a value
is already present when processed. -/
def applyAddValues (s : List String) (vs : List String) : Option (List String) :=
  vs.foldlM (fun s v => if v ∈ s then none else some (s ++ [v])) s

/-- Delete a list of values from an attribute, one at a time; fails if a
value is absent when processed. -/
def applyDeleteValues (s : List String) (vs : List String) : Option (List String) :=
  vs.foldlM (fun s v => if v ∈ s then some (s.erase v) else none) s

/-- Unfolding lemma: adding no values is the identity. -/
theorem applyAddValues_nil (s : List String) : applyAddValues s [] = some s := rfl

/-- Unfolding lemma: add one value, then the rest. -/
theorem applyAddValues_cons (s : List String) (v : String) (vs : List String) :
    applyAddValues s (v :: vs) =
      if v ∈ s then none else applyAddValues (s ++ [v]) vs := by
  by_cases hv : v ∈ s <;> simp [applyAddValues, List.foldlM_cons, hv]

/-- Unfolding lemma: deleting no values is the identity. -/
theorem applyDeleteValues_nil (s : List String) : applyDeleteValues s [] = some s := rfl

/-- Unfolding lemma: delete one value, then the rest. -/
theorem applyDeleteValues_cons (s : List String) (v : String) (vs : List String) :
    applyDeleteValues s (v :: vs) =
      if v ∈ s then applyDeleteValues (s.erase v) vs else none := by
  by_cases hv : v ∈ s <;> simp [applyDeleteValues, List.foldlM_cons, hv]

/-- Apply one change to the group's `uniqueMember` values; changes that
address another attribute leave them untouched. -/
def applyChange (s : List String) (c : Change) : Option (List String) :=
  if c.attr == uniqueMemberAttr then
    match c.op with
    | ChangeOp.add => applyAddValues s c.values
    | ChangeOp.delete => applyDeleteValues s c.values
  else
    some s

/-- Apply a modify request atomically: all changes in order, or failure. -/
def applyModify (s : List String) (mr : ModifyRequest) : Option (List String) :=
  mr.changes.foldlM applyChange s

/-- The uniqueMember-collection loop of `groupsManager.getAddRequest`
(groups source). -/
def getAddRequestUniqueMembers (cfg : Config) (memberIds : List String) : List String :=
  memberIds.foldl (fun acc memberId =>
    acc ++ [getUniqueMemberDn cfg (goToUpper memberId)]) []

/-- The memberId substitution of `groupsManager.Create` (groups source):
an empty list is replaced by the sentinel member cn. -/
def createMemberIds (memberIds : List String) : List String :=
  if memberIds.length = 0 then memberIds ++ [noSuchUserGroupMemberCn] else memberIds

/-- The member set with which `Create` populates a new group, as the
directory accepts it: the add of the `uniqueMember` attribute values from
`getAddRequest`. -/
def createApply (cfg : Config) (memberIds : List String) : Option (List String) :=
  applyAddValues [] (getAddRequestUniqueMembers cfg (createMemberIds memberIds))

/-- One `AddMembers` call as it affects the group's member list: fetch the
current members, issue the reconciliation modify request, keep the old
state when the modify fails. -/
def addMembersStep (cfg : Config) (cn ou : String) (s memberIds : List String) :
    List String :=
  (applyModify s (addMembersModifyRequest cfg cn ou s memberIds)).getD s

/-- One `RemoveMembers` call as it affects the group's member list. -/
def removeMembersStep (cfg : Config) (cn ou : String) (s memberIds : List String) :
    List String :=
  (applyModify s (removeMembersModifyRequest cfg cn ou s memberIds)).getD s

/-- Group member states reachable through this library's operations:
`Create` with any memberIds, followed by any sequence of `AddMembers` and
`RemoveMembers`. -/
inductive ReachableGroup (cfg : Config) : List String → Prop where
  | create (memberIds : List String) (s : List String)
      (h : createApply cfg memberIds = some s) : ReachableGroup cfg s
  | addMembers (cn ou : String) (memberIds : List String) (s : List String)
      (h : ReachableGroup cfg s) :
      ReachableGroup cfg (addMembersStep cfg cn ou s memberIds)
  | removeMembers (cn ou : String) (memberIds : List String) (s : List String)
      (h : ReachableGroup cfg s) :
      ReachableGroup cfg (removeMembersStep cfg cn ou s memberIds)

/-- A successful value-by-value add appends exactly the given values. -/
theorem applyAddValues_eq_some {s vs t : List String}
    (h : applyAddValues s vs = some t) : t = s ++ vs := by
  induction vs generalizing s with
  | nil =>
    rw [applyAddValues_nil, Option.some.injEq] at h
    simp [← h]
  | cons v vs ih =>
    rw [applyAddValues_cons] at h
    by_cases hc : v ∈ s
    · rw [if_pos hc] at h
      exact absurd h (by simp)
    · rw [if_neg hc] at h
      have := ih h
      simp [this]

/-- A successful value-by-value delete shortens the list by exactly the
number of values deleted. -/
theorem applyDeleteValues_length {s vs t : List String}
    (h : applyDeleteValues s vs = some t) : t.length + vs.length = s.length := by
  induction vs generalizing s with
  | nil =>
    rw [applyDeleteValues_nil, Option.some.injEq] at h
    simp [← h]
  | cons v vs ih =>
    rw [applyDeleteValues_cons] at h
    by_cases hc : v ∈ s
    · rw [if_pos hc] at h
      have hlen := List.length_erase_of_mem hc
      have hs : 1 ≤ s.length := List.length_pos.mpr (List.ne_nil_of_mem hc)
      have := ih h
      simp only [List.length_cons]
      omega
    · rw [if_neg hc] at h
      exact absurd h (by simp)

/-- Every value the `AddMembers` loop collects is absent from the current
member list. -/
theorem addMembersLoop_not_mem (cfg : Config) (members memberIds : List String) :
    ∀ d ∈ addMembersLoop cfg members memberIds, d ∉ members := by
  intro d hd
  rw [addMembersLoop_eq] at hd
  have := List.of_mem_filter hd
  simpa [List.elem_iff] using this

/-- Full characterization of the value-by-value add: it succeeds exactly
when the values are pairwise distinct and all absent, and then appends
them. -/
theorem applyAddValues_eq (s vs : List String) :
    applyAddValues s vs =
      if vs.Nodup ∧ ∀ v ∈ vs, v ∉ s then some (s ++ vs) else none := by
  induction vs generalizing s with
  | nil => simp [applyAddValues_nil]
  | cons v vs ih =>
    rw [applyAddValues_cons]
    by_cases hv : v ∈ s
    · rw [if_pos hv, if_neg (fun h => h.2 v (List.mem_cons_self v vs) hv)]
    · rw [if_neg hv, ih]
      by_cases h1 : vs.Nodup ∧ ∀ u ∈ vs, u ∉ s ++ [v]
      · have hcond : (v :: vs).Nodup ∧ ∀ u ∈ v :: vs, u ∉ s := by
          constructor
          · rw [List.nodup_cons]
            exact ⟨fun hvvs => (h1.2 v hvvs) (by simp), h1.1⟩
          · intro u hu
            rcases List.mem_cons.mp hu with rfl | hu2
            · exact hv
            · intro hus
              exact h1.2 u hu2 (by simp [hus])
        rw [if_pos h1, if_pos hcond]
        simp
      · have hcond : ¬((v :: vs).Nodup ∧ ∀ u ∈ v :: vs, u ∉ s) := by
          intro h2
          apply h1
          refine ⟨(List.nodup_cons.mp h2.1).2, fun u hu hus => ?_⟩
          rcases List.mem_append.mp hus with hus' | hus'
          · exact h2.2 u (List.mem_cons_of_mem v hu) hus'
          · have huv : u = v := by simpa using hus'
            exact (List.nodup_cons.mp h2.1).1 (huv ▸ hu)
        rw [if_neg h1, if_neg hcond]

/-- `applyAddValues` on the `AddMembers` loop's collected values: all are
absent from the current members, so it succeeds exactly when they are
pairwise distinct, and then appends them. -/
theorem applyAddValues_loop (cfg : Config) (s memberIds : List String) :
    applyAddValues s (addMembersLoop cfg s memberIds) =
      if (addMembersLoop cfg s memberIds).Nodup then
        some (s ++ addMembersLoop cfg s memberIds)
      else none := by
  rw [applyAddValues_eq]
  by_cases h : (addMembersLoop cfg s memberIds).Nodup
  · rw [if_pos ⟨h, addMembersLoop_not_mem cfg s memberIds⟩, if_pos h]
  · rw [if_neg (fun hh => h hh.1), if_neg h]

/-- Unfolding lemma: an empty modify request changes nothing. -/
theorem applyModify_nil (s : List String) (dn : String) :
    applyModify s ⟨dn, []⟩ = some s := rfl

/-- Unfolding lemma: a one-change modify request applies that change. -/
theorem applyModify_one (s : List String) (dn : String) (c : Change) :
    applyModify s ⟨dn, [c]⟩ = applyChange s c := by
  unfold applyModify
  cases h : applyChange s c <;> simp [List.foldlM, h]

/-- Unfolding lemma: a two-change modify request applies the changes in
order, atomically. -/
theorem applyModify_two (s : List String) (dn : String) (c₁ c₂ : Change) :
    applyModify s ⟨dn, [c₁, c₂]⟩ =
      (applyChange s c₁).bind (fun t => applyChange t c₂) := by
  unfold applyModify
  cases h1 : applyChange s c₁ with
  | none => simp [List.foldlM, h1]
  | some t => cases h2 : applyChange t c₂ <;> simp [List.foldlM, h1, h2]

/-- An add-change on the member attribute adds its values. -/
theorem applyChange_add (s vals : List String) :
    applyChange s ⟨ChangeOp.add, uniqueMemberAttr, vals⟩ = applyAddValues s vals := by
  simp [applyChange]

/-- A delete-change on the member attribute deletes its values. -/
theorem applyChange_delete (s vals : List String) :
    applyChange s ⟨ChangeOp.delete, uniqueMemberAttr, vals⟩ = applyDeleteValues s vals := by
  simp [applyChange]

/-- Characterization of one `AddMembers` call on the member list: with `A`
the collected DNs, the call fails (leaving the list unchanged) when `A`
has a duplicate; otherwise it appends `A` and, when the current plus added
count is ≥ 2, deletes the sentinel DN — the whole modify failing (list
unchanged) when the sentinel is absent. -/
theorem addMembersStep_eq (cfg : Config) (cn ou : String) (s memberIds : List String) :
    addMembersStep cfg cn ou s memberIds =
      if (addMembersLoop cfg s memberIds).Nodup then
        if 2 ≤ s.length + (addMembersLoop cfg s memberIds).length then
          if getUniqueMemberDn cfg noSuchUserGroupMemberCn ∈
              s ++ addMembersLoop cfg s memberIds then
            (s ++ addMembersLoop cfg s memberIds).erase
              (getUniqueMemberDn cfg noSuchUserGroupMemberCn)
          else s
        else s ++ addMembersLoop cfg s memberIds
      else s := by
  by_cases h1 : 0 < (addMembersLoop cfg s memberIds).length
  · by_cases h2 : 2 ≤ s.length + (addMembersLoop cfg s memberIds).length
    · have hreq : addMembersModifyRequest cfg cn ou s memberIds =
          ⟨groupsGetDN cfg cn ou,
            [⟨ChangeOp.add, uniqueMemberAttr, addMembersLoop cfg s memberIds⟩,
              ⟨ChangeOp.delete, uniqueMemberAttr,
                [getUniqueMemberDn cfg noSuchUserGroupMemberCn]⟩]⟩ := by
        simp only [addMembersModifyRequest]
        rw [if_pos h1, if_pos h2]
        rfl
      rw [addMembersStep, hreq, applyModify_two, applyChange_add, applyAddValues_loop,
        if_pos h2]
      by_cases hn : (addMembersLoop cfg s memberIds).Nodup
      · rw [if_pos hn, if_pos hn, Option.some_bind, applyChange_delete,
          applyDeleteValues_cons]
        by_cases hm : getUniqueMemberDn cfg noSuchUserGroupMemberCn ∈
            s ++ addMembersLoop cfg s memberIds
        · rw [if_pos hm, if_pos hm, applyDeleteValues_nil, Option.getD_some]
        · rw [if_neg hm, if_neg hm, Option.getD_none]
      · rw [if_neg hn, if_neg hn, Option.none_bind, Option.getD_none]
    · have hreq : addMembersModifyRequest cfg cn ou s memberIds =
          ⟨groupsGetDN cfg cn ou,
            [⟨ChangeOp.add, uniqueMemberAttr, addMembersLoop cfg s memberIds⟩]⟩ := by
        simp only [addMembersModifyRequest]
        rw [if_pos h1, if_neg h2]
        rfl
      rw [addMembersStep, hreq, applyModify_one, applyChange_add, applyAddValues_loop,
        if_neg h2]
      by_cases hn : (addMembersLoop cfg s memberIds).Nodup
      · rw [if_pos hn, if_pos hn, Option.getD_some]
      · rw [if_neg hn, if_neg hn, Option.getD_none]
  · have hA0 : addMembersLoop cfg s memberIds = [] :=
      List.eq_nil_of_length_eq_zero (by omega)
    rw [hA0]
    simp only [List.nodup_nil, if_true, List.append_nil, List.length_nil, Nat.add_zero]
    by_cases h2 : 2 ≤ s.length
    · have hreq : addMembersModifyRequest cfg cn ou s memberIds =
          ⟨groupsGetDN cfg cn ou,
            [⟨ChangeOp.delete, uniqueMemberAttr,
              [getUniqueMemberDn cfg noSuchUserGroupMemberCn]⟩]⟩ := by
        simp only [addMembersModifyRequest]
        rw [if_neg h1, hA0]
        simp only [List.length_nil, Nat.add_zero]
        rw [if_pos h2]
        rfl
      rw [addMembersStep, hreq, applyModify_one, applyChange_delete,
        applyDeleteValues_cons, if_pos h2]
      by_cases hm : getUniqueMemberDn cfg noSuchUserGroupMemberCn ∈ s
      · rw [if_pos hm, if_pos hm, applyDeleteValues_nil, Option.getD_some]
      · rw [if_neg hm, if_neg hm, Option.getD_none]
    · have hreq : addMembersModifyRequest cfg cn ou s memberIds =
          ⟨groupsGetDN cfg cn ou, []⟩ := by
        simp only [addMembersModifyRequest]
        rw [if_neg h1, hA0]
        simp only [List.length_nil, Nat.add_zero]
        rw [if_neg h2]
      rw [addMembersStep, hreq, applyModify_nil, Option.getD_some, if_neg h2]

/-- Loops of `getAddRequest`'s shape map the function over the list. -/
theorem foldl_map_eq (f : String → String) :
    ∀ (l acc : List String), l.foldl (fun acc x => acc ++ [f x]) acc = acc ++ l.map f := by
  intro l
  induction l with
  | nil => intro acc; simp
  | cons x xs ih => intro acc; simp [ih]

/-- `getAddRequest` collects the uppercased, qualified DN of every id. -/
theorem getAddRequestUniqueMembers_eq (cfg : Config) (memberIds : List String) :
    getAddRequestUniqueMembers cfg memberIds =
      memberIds.map (fun m => getUniqueMemberDn cfg (goToUpper m)) := by
  have h := foldl_map_eq (fun m => getUniqueMemberDn cfg (goToUpper m)) memberIds []
  simpa [getAddRequestUniqueMembers] using h

/-- A group accepted at `Create` has at least one member: the sentinel is
substituted when no memberIds are given. -/
theorem createApply_length (cfg : Config) {memberIds s : List String}
    (h : createApply cfg memberIds = some s) : 1 ≤ s.length := by
  unfold createApply at h
  have hs := applyAddValues_eq_some h
  rw [hs, List.nil_append, getAddRequestUniqueMembers_eq, List.length_map]
  unfold createMemberIds
  by_cases h0 : memberIds.length = 0
  · rw [if_pos h0]
    simp
  · rw [if_neg h0]
    omega

/-- `AddMembers` preserves nonemptiness of the member list. -/
theorem addMembersStep_length (cfg : Config) (cn ou : String) (s memberIds : List String)
    (hs : 1 ≤ s.length) : 1 ≤ (addMembersStep cfg cn ou s memberIds).length := by
  rw [addMembersStep_eq]
  split_ifs with hn hg hm
  · rw [List.length_erase_of_mem hm, List.length_append]
    omega
  · exact hs
  · rw [List.length_append]
    omega
  · exact hs

/-- `RemoveMembers` preserves nonemptiness of the member list: when the
delete would empty it, the request re-adds the sentinel, and a failing
modify leaves the list unchanged. -/
theorem removeMembersStep_length (cfg : Config) (cn ou : String)
    (s memberIds : List String) (hs : 1 ≤ s.length) :
    1 ≤ (removeMembersStep cfg cn ou s memberIds).length := by
  by_cases h1 : 0 < (removeMembersLoop cfg s memberIds).length
  · by_cases h2 : (s.length : Int) - (removeMembersLoop cfg s memberIds).length = 0
    · have hreq : removeMembersModifyRequest cfg cn ou s memberIds =
          ⟨groupsGetDN cfg cn ou,
            [⟨ChangeOp.delete, uniqueMemberAttr, removeMembersLoop cfg s memberIds⟩,
              ⟨ChangeOp.add, uniqueMemberAttr,
                [getUniqueMemberDn cfg (goToUpper noSuchUserGroupMemberCn)]⟩]⟩ := by
        simp only [removeMembersModifyRequest]
        rw [if_pos h1, if_pos h2]
        rfl
      rw [removeMembersStep, hreq, applyModify_two]
      cases happ : (applyChange s
          ⟨ChangeOp.delete, uniqueMemberAttr, removeMembersLoop cfg s memberIds⟩).bind
          (fun t => applyChange t
            ⟨ChangeOp.add, uniqueMemberAttr,
              [getUniqueMemberDn cfg (goToUpper noSuchUserGroupMemberCn)]⟩) with
      | none => rw [Option.getD_none]; exact hs
      | some t =>
        rw [Option.getD_some]
        rcases Option.bind_eq_some.mp happ with ⟨t1, ht1, ht2⟩
        rw [applyChange_add] at ht2
        have := applyAddValues_eq_some ht2
        rw [this, List.length_append]
        simp
    · have hreq : removeMembersModifyRequest cfg cn ou s memberIds =
          ⟨groupsGetDN cfg cn ou,
            [⟨ChangeOp.delete, uniqueMemberAttr, removeMembersLoop cfg s memberIds⟩]⟩ := by
        simp only [removeMembersModifyRequest]
        rw [if_pos h1, if_neg h2]
        rfl
      rw [removeMembersStep, hreq, applyModify_one, applyChange_delete]
      cases happ : applyDeleteValues s (removeMembersLoop cfg s memberIds) with
      | none => rw [Option.getD_none]; exact hs
      | some t =>
        rw [Option.getD_some]
        have hlen := applyDeleteValues_length happ
        have hne : s.length ≠ (removeMembersLoop cfg s memberIds).length := by
          intro he
          exact h2 (by rw [he]; ring)
        omega
  · by_cases h2 : (s.length : Int) - (removeMembersLoop cfg s memberIds).length = 0
    · have hreq : removeMembersModifyRequest cfg cn ou s memberIds =
          ⟨groupsGetDN cfg cn ou,
            [⟨ChangeOp.add, uniqueMemberAttr,
              [getUniqueMemberDn cfg (goToUpper noSuchUserGroupMemberCn)]⟩]⟩ := by
        simp only [removeMembersModifyRequest]
        rw [if_neg h1, if_pos h2]
        rfl
      rw [removeMembersStep, hreq, applyModify_one, applyChange_add]
      cases happ : applyAddValues s
          [getUniqueMemberDn cfg (goToUpper noSuchUserGroupMemberCn)] with
      | none => rw [Option.getD_none]; exact hs
      | some t =>
        rw [Option.getD_some]
        have := applyAddValues_eq_some happ
        rw [this, List.length_append]
        simp
    · have hreq : removeMembersModifyRequest cfg cn ou s memberIds =
          ⟨groupsGetDN cfg cn ou, []⟩ := by
        simp only [removeMembersModifyRequest]
        rw [if_neg h1, if_neg h2]
      rw [removeMembersStep, hreq, applyModify_nil, Option.getD_some]
      exact hs

/-- C1: for every group reachable through this library's operations —
`Create` with any memberIds, followed by any sequence of `AddMembers` and
`RemoveMembers` — the member list is never empty: `Create` substitutes
the sentinel member when memberIds is empty, and `RemoveMembers` re-adds
the sentinel when the removal would leave zero members. -/
theorem groupMembers_nonempty (cfg : Config) (s : List String)
    (h : ReachableGroup cfg s) : 1 ≤ s.length := by
  induction h with
  | create memberIds s h => exact createApply_length cfg h
  | addMembers cn ou memberIds s _ ih => exact addMembersStep_length cfg cn ou s memberIds ih
  | removeMembers cn ou memberIds s _ ih =>
    exact removeMembersStep_length cfg cn ou s memberIds ih

/-- Witness for C1: the group created with no memberIds holds exactly the
sentinel member DN, a reachable nonempty state. -/
theorem groupMembers_nonempty_witness :
    ReachableGroup ⟨"ou=users,o=example", "ou=groups,o=example"⟩
        ["uid=NO_SUCH_USER,ou=users,o=example"] ∧
    1 ≤ (["uid=NO_SUCH_USER,ou=users,o=example"] : List String).length := by
  have hr : ReachableGroup ⟨"ou=users,o=example", "ou=groups,o=example"⟩
      ["uid=NO_SUCH_USER,ou=users,o=example"] :=
    ReachableGroup.create [] _ (by decide)
  exact ⟨hr, groupMembers_nonempty _ _ hr⟩

/-- Membership in the `AddMembers` collection: a qualified DN of some
requested id that is not a current member. -/
theorem mem_addMembersLoop {cfg : Config} {s memberIds : List String} {d : String} :
    d ∈ addMembersLoop cfg s memberIds ↔
      d ∈ memberIds.map (fun m => getUniqueMemberDn cfg (goToUpper m)) ∧ d ∉ s := by
  rw [addMembersLoop_eq]
  simp [List.mem_filter, List.elem_iff]

/-- Every requested qualified DN is a current member or collected. -/
theorem mapped_mem_or (cfg : Config) (s memberIds : List String) :
    ∀ d ∈ memberIds.map (fun m => getUniqueMemberDn cfg (goToUpper m)),
      d ∈ s ∨ d ∈ addMembersLoop cfg s memberIds := by
  intro d hd
  by_cases h : d ∈ s
  · exact Or.inl h
  · exact Or.inr (mem_addMembersLoop.mpr ⟨hd, h⟩)

/-- Appending a fresh element and erasing it is the identity. -/
theorem erase_append_singleton_self (l : List String) (a : String) (h : a ∉ l) :
    (l ++ [a]).erase a = l := by
  rw [List.erase_append_right _ h]
  simp

/-- C4: `AddMembers` is idempotent — applying the membership
reconciliation twice with the same memberIds yields the same final member
list as applying it once (for any duplicate-free current member list, as
LDAP attribute value lists are). -/
theorem addMembers_idempotent (cfg : Config) (cn ou : String)
    (memberIds s : List String) (hs : s.Nodup) :
    addMembersStep cfg cn ou (addMembersStep cfg cn ou s memberIds) memberIds =
      addMembersStep cfg cn ou s memberIds := by
  rw [addMembersStep_eq cfg cn ou s memberIds]
  split_ifs with hn hg hm
  -- case: collected list duplicate-free, sentinel-delete queued, sentinel present
  · have hdisj : s.Disjoint (addMembersLoop cfg s memberIds) := by
      intro a ha hA
      exact addMembersLoop_not_mem cfg s memberIds a hA ha
    have hnd : (s ++ addMembersLoop cfg s memberIds).Nodup := hs.append hn hdisj
    have hsent_not :
        getUniqueMemberDn cfg noSuchUserGroupMemberCn ∉
          (s ++ addMembersLoop cfg s memberIds).erase
            (getUniqueMemberDn cfg noSuchUserGroupMemberCn) := by
      intro hmem
      exact absurd ((hnd.mem_erase_iff).mp hmem).1 (by simp)
    have hother : ∀ d ∈ memberIds.map (fun m => getUniqueMemberDn cfg (goToUpper m)),
        d ≠ getUniqueMemberDn cfg noSuchUserGroupMemberCn →
        d ∈ (s ++ addMembersLoop cfg s memberIds).erase
          (getUniqueMemberDn cfg noSuchUserGroupMemberCn) := by
      intro d hd hne
      refine (hnd.mem_erase_iff).mpr ⟨hne, ?_⟩
      rcases mapped_mem_or cfg s memberIds d hd with h | h
      · exact List.mem_append.mpr (Or.inl h)
      · exact List.mem_append.mpr (Or.inr h)
    have hA2 : addMembersLoop cfg
        ((s ++ addMembersLoop cfg s memberIds).erase
          (getUniqueMemberDn cfg noSuchUserGroupMemberCn)) memberIds =
        (memberIds.map (fun m => getUniqueMemberDn cfg (goToUpper m))).filter
          (fun d => d == getUniqueMemberDn cfg noSuchUserGroupMemberCn) := by
      rw [addMembersLoop_eq]
      refine List.filter_congr ?_
      intro d hd
      by_cases hds : d = getUniqueMemberDn cfg noSuchUserGroupMemberCn
      · subst hds
        simp only [beq_self_eq_true]
        have hc : ((s ++ addMembersLoop cfg s memberIds).erase
            (getUniqueMemberDn cfg noSuchUserGroupMemberCn)).contains
            (getUniqueMemberDn cfg noSuchUserGroupMemberCn) = false := by
          rw [Bool.eq_false_iff]
          intro hc
          exact hsent_not (List.elem_iff.mp hc)
        rw [hc]
        rfl
      · have hd1 := hother d hd hds
        have hc : ((s ++ addMembersLoop cfg s memberIds).erase
            (getUniqueMemberDn cfg noSuchUserGroupMemberCn)).contains d = true :=
          List.elem_iff.mpr hd1
        rw [hc]
        simp [hds]
    have hs1len : ((s ++ addMembersLoop cfg s memberIds).erase
        (getUniqueMemberDn cfg noSuchUserGroupMemberCn)).length + 1 =
        s.length + (addMembersLoop cfg s memberIds).length := by
      rw [List.length_erase_of_mem hm, List.length_append]
      omega
    rw [addMembersStep_eq, hA2]
    cases hfil : (memberIds.map (fun m => getUniqueMemberDn cfg (goToUpper m))).filter
        (fun d => d == getUniqueMemberDn cfg noSuchUserGroupMemberCn) with
    | nil =>
      simp only [List.nodup_nil, if_true, List.append_nil, List.length_nil, Nat.add_zero]
      by_cases hg2 : 2 ≤ ((s ++ addMembersLoop cfg s memberIds).erase
          (getUniqueMemberDn cfg noSuchUserGroupMemberCn)).length
      · rw [if_pos hg2, if_neg hsent_not]
      · rw [if_neg hg2]
    | cons x xs =>
      have hx : x = getUniqueMemberDn cfg noSuchUserGroupMemberCn := by
        have hmem : x ∈ (memberIds.map (fun m => getUniqueMemberDn cfg (goToUpper m))).filter
            (fun d => d == getUniqueMemberDn cfg noSuchUserGroupMemberCn) := by
          rw [hfil]; exact List.mem_cons_self x xs
        simpa using (List.mem_filter.mp hmem).2
      cases xs with
      | nil =>
        subst hx
        have hnod : ([getUniqueMemberDn cfg noSuchUserGroupMemberCn] : List String).Nodup := by
          simp
        rw [if_pos hnod]
        have hg2 : 2 ≤ ((s ++ addMembersLoop cfg s memberIds).erase
            (getUniqueMemberDn cfg noSuchUserGroupMemberCn)).length +
            ([getUniqueMemberDn cfg noSuchUserGroupMemberCn] : List String).length := by
          simp only [List.length_singleton]
          omega
        rw [if_pos hg2, if_pos (by simp : getUniqueMemberDn cfg noSuchUserGroupMemberCn ∈
          (s ++ addMembersLoop cfg s memberIds).erase
            (getUniqueMemberDn cfg noSuchUserGroupMemberCn) ++
            [getUniqueMemberDn cfg noSuchUserGroupMemberCn])]
        exact erase_append_singleton_self _ _ hsent_not
      | cons y ys =>
        have hy : y = getUniqueMemberDn cfg noSuchUserGroupMemberCn := by
          have hmem : y ∈ (memberIds.map (fun m => getUniqueMemberDn cfg (goToUpper m))).filter
              (fun d => d == getUniqueMemberDn cfg noSuchUserGroupMemberCn) := by
            rw [hfil]
            exact List.mem_cons_of_mem x (List.mem_cons_self y ys)
          simpa using (List.mem_filter.mp hmem).2
        have hnod : ¬(x :: y :: ys).Nodup := by
          rw [List.nodup_cons]
          intro hcon
          exact hcon.1 (by rw [hx, ← hy]; exact List.mem_cons_self y ys)
        rw [if_neg hnod]
  -- case: sentinel-delete queued but sentinel absent: the modify failed
  · rw [addMembersStep_eq, if_pos hn, if_pos hg, if_neg hm]
  -- case: no sentinel-delete queued: the collected members were appended
  · have hA2 : addMembersLoop cfg (s ++ addMembersLoop cfg s memberIds) memberIds = [] := by
      rw [addMembersLoop_eq]
      rw [List.filter_eq_nil_iff]
      intro d hd
      have hmem : d ∈ s ++ addMembersLoop cfg s memberIds := by
        rcases mapped_mem_or cfg s memberIds d hd with h | h
        · exact List.mem_append.mpr (Or.inl h)
        · exact List.mem_append.mpr (Or.inr h)
      have hc : (s ++ addMembersLoop cfg s memberIds).contains d = true :=
        List.elem_iff.mpr hmem
      rw [hc]
      simp
    rw [addMembersStep_eq, hA2]
    simp only [List.nodup_nil, if_true, List.append_nil, List.length_nil, Nat.add_zero]
    rw [if_neg (by rw [List.length_append]; exact hg)]
  -- case: the collected list had a duplicate: the modify failed
  · rw [addMembersStep_eq, if_neg hn]

/-- Witness for C4 at concrete inputs. -/
theorem addMembers_idempotent_witness :
    addMembersStep ⟨"ou=users,o=example", "ou=groups,o=example"⟩ "g1" "ou1"
        (addMembersStep ⟨"ou=users,o=example", "ou=groups,o=example"⟩ "g1" "ou1"
          ["uid=A,ou=users,o=example"] ["b"]) ["b"] =
      addMembersStep ⟨"ou=users,o=example", "ou=groups,o=example"⟩ "g1" "ou1"
        ["uid=A,ou=users,o=example"] ["b"] :=
  addMembers_idempotent ⟨"ou=users,o=example", "ou=groups,o=example"⟩ "g1" "ou1"
    ["b"] ["uid=A,ou=users,o=example"] (by decide)

end LdapLib
